import Mathlib

set_option maxRecDepth 40000

/-!
Verification development for the assembler of the "johnny" simulator
(`src/assembler.js`).  The JavaScript source is shallowly embedded below:
the lexer, the structural parser, and the two-pass code generator are
translated into executable Lean definitions over `List Char`, `Token`,
`Expression` and an explicit `AsmState`.  JavaScript arrays are modelled
as Lean lists (with the out-of-bounds *assignment* `memory[i] = v` for
`i = memory.length` modelled as an append, which is how JavaScript grows
the array), JavaScript numbers by `Nat`/`Int`, and the bitwise assignment
`|=` by explicit 32-bit wrapping (`toInt32`) followed by `Int.lor`.

Unbounded loops and recursion of the source are given a structural `fuel`
parameter so that every definition computes by kernel reduction; each
entry point passes fuel strictly larger than the number of steps the
corresponding loop can take (every step consumes at least one character,
token or expression), so the fuel-exhaustion branches are unreachable and
the embedding agrees with the JavaScript control flow.

The only part of the source that is not translated line by line is the
call `eval(value.map(e => e[1].toString()).join(''))` executed during the
relocation pass: a host-language `eval` has no finite description.  It is
modelled faithfully for the fragment it is actually applied to: the token
values are rendered to strings and concatenated exactly as in the source
(`renderTokens`), and the resulting string is evaluated as an arithmetic
expression — decimal literals, the binary operators `+ - *`, a unary
sign, and parentheses, with JavaScript precedence and JavaScript's value
coercion over the reachable value space (integers, `NaN`, strings; see
`JsVal`).  Identifiers follow the `with(labels)` scope chain of the
source: the label table first, then the script's own top-level constants
whose names are lexable as a single identifier token — `NUMBERS`,
`SYMBOLS` and `INSTRUCTIONS` (`src/assembler.js` lines 12-30), modelled
with their JavaScript values (`scriptScope`) — and a name resolving
nowhere in that chain is the `ReferenceError`.  Outside the model are
JavaScript-only exotica that no theorem below depends on: maximal-munch
`++ -- **` punctuators, double rounding above 2^53, and the globals of a
particular host environment (e.g. a browser's `URL`), which are not part
of this repository's source; theorems about unresolved identifiers read
modulo that last caveat, and their witnesses use names (such as `X`)
that no standard host defines.
-/

/-! ## Fixed instruction and directive tables (`src/assembler.js` lines 12-30) -/

def INSTRUCTIONS : List String :=
  ["~", "TAKE", "ADD", "SUB", "SAVE", "JMP", "TST", "INC", "DEC", "NULL", "HLT"]

def INSTRUCTION_ARG_LENGTHS : List Nat :=
  [0, 1, 1, 1, 1, 1, 1, 1, 1, 1, 0]

def D_ORG : Nat := 0
def D_TIMES : Nat := 1
def D_DV : Nat := 2

def COMPILER_DIRECTIVES : List String := ["ORG", "TIMES", "DV"]

def DIRECTIVE_ARG_LENGTHS : List Nat := [1, 1, 1]

def NUMBERS : List Char := ("1234567890").toList

def SYMBOLS : List Char := ("+-*()").toList

/-- Character class used by the lexer: `charCode >= 0x41 && charCode <= 0x5A`
(uppercase ASCII letters only). -/
def isLetter (c : Char) : Bool := 0x41 ≤ c.toNat && c.toNat ≤ 0x5A

def isLetterOrNumber (c : Char) : Bool := isLetter c || NUMBERS.contains c

/-- JavaScript's `toUpperCase` restricted to a single character: ASCII
lowercase letters are mapped to uppercase, everything else is unchanged.
(All inputs of interest are ASCII; the lexer applies this map through
`peek`/`next` to the one character it dispatches on.) -/
def jsToUpper (c : Char) : Char :=
  if h : 97 ≤ c.toNat ∧ c.toNat ≤ 122 then
    Char.ofNatAux (c.toNat - 32) (Or.inl (by omega))
  else c

/-! ## Tokens and the lexer (`src/assembler.js` lines 42-115) -/

/-- Token data model (`type Token = [T_..., string | number]`). -/
inductive Token where
  | ident (s : String)
  | number (n : Nat)
  | arith (c : Char)
  | labelMarker
  | instruction (i : Nat)
  | directive (i : Nat)
  | linenum (n : Nat)
  | comma
deriving DecidableEq, Repr

/-- Decimal value of a digit run, as computed by `parseInt`. -/
def digitsToNat (cs : List Char) : Nat :=
  cs.foldl (fun a c => 10 * a + (c.toNat - 48)) 0

theorem dropWhile_length_le {α : Type} (p : α → Bool) :
    ∀ l : List α, (l.dropWhile p).length ≤ l.length := by
  intro l
  induction l with
  | nil => simp [List.dropWhile]
  | cons a l ih =>
    simp only [List.dropWhile]
    split
    · exact Nat.le_succ_of_le ih
    · simp

/-- The main scanning loop of `lexer`: one step per call of `next()`.
`collectWhile` becomes `takeWhile`/`dropWhile` on the remaining input;
only the dispatched character goes through `jsToUpper` (the source
uppercases in `peek`, while `collectWhile` reads the raw characters).
Every step consumes at least one character, so fuel exceeding the input
length is never exhausted. -/
def lexLoop : Nat → List Char → Nat → Except String (List Token)
  | 0, _, _ => .error ("RangeError: maximum call stack size exceeded")
  | _ + 1, [], _ => .ok []
  | fuel + 1, c0 :: rest, ln =>
    let c := jsToUpper c0
    if c = ' ' then lexLoop fuel rest ln
    else if c = '\n' then (lexLoop fuel rest (ln + 1)).map (Token.linenum (ln + 1) :: ·)
    else if NUMBERS.contains c then
      (lexLoop fuel (rest.dropWhile (fun e => NUMBERS.contains e)) ln).map
        (Token.number (digitsToNat (c :: rest.takeWhile (fun e => NUMBERS.contains e))) :: ·)
    else if SYMBOLS.contains c then (lexLoop fuel rest ln).map (Token.arith c :: ·)
    else if isLetter c then
      let seq : String := String.mk (c :: rest.takeWhile isLetterOrNumber)
      let restAfter := rest.dropWhile isLetterOrNumber
      match INSTRUCTIONS.findIdx? (· = seq) with
      | none => (lexLoop fuel restAfter ln).map (Token.ident seq :: ·)
      | some i => (lexLoop fuel restAfter ln).map (Token.instruction i :: ·)
    else if c = ':' then (lexLoop fuel rest ln).map (Token.labelMarker :: ·)
    else if c = '#' then
      let dir : String := String.mk (rest.takeWhile isLetter)
      match COMPILER_DIRECTIVES.findIdx? (· = dir) with
      | none => .error ("No such compiler directive at line " ++ toString ln)
      | some i => (lexLoop fuel (rest.dropWhile isLetter) ln).map (Token.directive i :: ·)
    else if c = ',' then (lexLoop fuel rest ln).map (Token.comma :: ·)
    else if c = ';' then lexLoop fuel (rest.dropWhile (· ≠ '\n')) ln
    else .error ("Unexpected symbol found while lexing at line " ++ toString ln)

/-- The lexer (`function lexer(inputData)`): appends the synthetic final
newline, starts with the line marker for line 1, and scans. -/
def lexer (s : List Char) : Except String (List Token) :=
  (lexLoop (s.length + 2) (s ++ ['\n']) 1).map (Token.linenum 1 :: ·)

/-! ## Expressions and the structural parser (`src/assembler.js` lines 117-182) -/

/-- Expression data model (`type Expression = [E_..., content]`). -/
inductive Expression where
  | label (s : String)
  | instruction (i : Nat) (args : List (List Token))
  | directive (i : Nat) (args : List (List Token))
  | linenum (n : Nat)
deriving DecidableEq, Repr

/-- Error wrapper of the parser's `catch` block
(`Error while parsing line ${lineNumber}: ${ex}`). -/
def parseWrap (ln : Int) (msg : String) : String :=
  ("Error while parsing line ") ++ toString ln ++ (": ") ++ msg

/-- Argument-group collection (`collectCommaSeparated`): accumulate tokens
into the current group until a comma (close the group) or a line marker
(stop without consuming it); a trailing non-empty group is closed at line
end, then the group count is checked against the declared arity.  Running
off the end of the token stream is the JavaScript `TypeError` from
reading `tokenStream[cursor][0]` on `undefined` (unreachable for lexer
output, which always ends in a line marker). -/
def collectCommaSeparated (count : Nat) :
    List Token → List Token → List (List Token) →
    Except String (List (List Token) × List Token)
  | [], _, _ => .error ("TypeError: token stream exhausted")
  | Token.linenum n :: rest, buffer, output =>
    let output := if buffer.isEmpty then output else output ++ [buffer]
    if count ≠ output.length then
      .error ("Invalid number of arguments - expected " ++ toString count
        ++ (" got ") ++ toString output.length)
    else .ok (output, Token.linenum n :: rest)
  | Token.comma :: rest, buffer, output =>
    collectCommaSeparated count rest [] (output ++ [buffer])
  | t :: rest, buffer, output =>
    collectCommaSeparated count rest (buffer ++ [t]) output

/-- The parser's main loop: `expectAnyOf(T_DIRECTIVE, T_INSTRUCTION,
T_IDENT, T_LINENUM)` and the `switch`.  `lineNumber` starts at `-1`; every
error is wrapped by the surrounding `try`/`catch` with the line number
current at the moment it is thrown.  Every iteration consumes at least
the head token, so fuel exceeding the stream length is never
exhausted. -/
def parserLoop : Nat → List Token → Int → List Expression → Except String (List Expression)
  | 0, _, _, _ => .error ("RangeError: maximum call stack size exceeded")
  | _ + 1, [], _, acc => .ok acc
  | fuel + 1, Token.linenum n :: rest, _, acc =>
    parserLoop fuel rest n (acc ++ [Expression.linenum n])
  | fuel + 1, Token.ident s :: rest, ln, acc =>
    match rest with
    | Token.labelMarker :: rest2 => parserLoop fuel rest2 ln (acc ++ [Expression.label s])
    | _ => .error (parseWrap ln ("Expected token of type label marker"))
  | fuel + 1, Token.directive d :: rest, ln, acc =>
    match collectCommaSeparated (DIRECTIVE_ARG_LENGTHS.getD d 0) rest [] [] with
    | .error e => .error (parseWrap ln e)
    | .ok (args, rest2) => parserLoop fuel rest2 ln (acc ++ [Expression.directive d args])
  | fuel + 1, Token.instruction i :: rest, ln, acc =>
    match collectCommaSeparated (INSTRUCTION_ARG_LENGTHS.getD i 0) rest [] [] with
    | .error e => .error (parseWrap ln e)
    | .ok (args, rest2) => parserLoop fuel rest2 ln (acc ++ [Expression.instruction i args])
  | _ + 1, _ :: _, ln, _ =>
    .error (parseWrap ln ("Expected token of type directive, instruction, ident or linenum"))

/-- The structural parser (`function parser(tokenStream)`). -/
def parser (ts : List Token) : Except String (List Expression) :=
  parserLoop (ts.length + 1) ts (-1) []

/-! ## Code generator (`src/assembler.js` lines 184-266) -/

/-- Simple 'dud' assembler for the built-in instruction set
(`assembleInstruction`): base word `1000 * instr[0]` and the raw token
stream of the first argument (`instr[1][0]`, `none` when there is no
argument, mirroring JavaScript `undefined`). -/
def assembleInstruction (instr : Nat × List (List Token)) : Nat × Option (List Token) :=
  (1000 * instr.1, instr.2.head?)

/-- Assembly-time state of `function assembler(expressions)`: the memory
image, the deferred-relocation list `valuesToRecalculate`, the label
table (a prepend list — `List.lookup` finds the most recent binding,
matching last-write-wins JavaScript property assignment), the write
cursor `org` and the `lineNumber` tracker (initially `-1`). -/
structure AsmState where
  memory : List Int
  valuesToRecalculate : List (Nat × List Token)
  labels : List (String × Nat)
  org : Nat
  lineNumber : Int
deriving DecidableEq, Repr

def initState : AsmState :=
  { memory := List.replicate 1000 0, valuesToRecalculate := [], labels := [],
    org := 0, lineNumber := -1 }

/-- The `emit` helper: fails when `org > memory.length`; otherwise writes
`memory[org++] = number`.  A JavaScript assignment at index `org =
memory.length` grows the array by one cell, modelled as an append. -/
def emit (st : AsmState) (n : Int) : Except (Int × String) AsmState :=
  if st.memory.length < st.org then .error (st.lineNumber, ("Emitting outside of memory!"))
  else .ok { st with
    memory := if st.org < st.memory.length then st.memory.set st.org n else st.memory ++ [n],
    org := st.org + 1 }

/-- `tokenStreamAsNumber`: a stream is a number exactly when it is a
single `T_NUMBER` token. -/
def tokenStreamAsNumber : List Token → Option Nat
  | [Token.number n] => some n
  | _ => none

/-- The `for(let j = 0; j < N; j++) emitExpression(index+1)` loop of the
`D_TIMES` case: `n` sequential invocations of the per-expression step
`f`, threading the state and discarding the returned index. -/
def emitTimes (f : AsmState → Except (Int × String) (AsmState × Nat)) :
    Nat → AsmState → Except (Int × String) AsmState
  | 0, st => .ok st
  | n + 1, st =>
    match f st with
    | .error e => .error e
    | .ok (st1, _) => emitTimes f n st1

/-- One step of the first pass (`emitExpression`): processes
`expressions[index]` and returns the next index (always `index + 1`,
except `index + 2` after a repeat-next directive).  The `fuel` parameter
bounds the recursion depth of the `D_TIMES` case (JavaScript recursion is
unbounded; every recursive invocation moves at least one expression
forward, so fuel exceeding the expression count is never exhausted).
Reading past the end of `expressions` is the JavaScript `TypeError` from
destructuring `undefined`. -/
def emitExpression (es : List Expression) : Nat → Nat → AsmState → Except (Int × String) (AsmState × Nat)
  | 0, _, st => .error (st.lineNumber, ("RangeError: maximum call stack size exceeded"))
  | fuel + 1, index, st =>
    match es[index]? with
    | none => .error (st.lineNumber, ("TypeError: expression is undefined"))
    | some (Expression.linenum n) => .ok ({ st with lineNumber := n }, index + 1)
    | some (Expression.label s) => .ok ({ st with labels := (s, st.org) :: st.labels }, index + 1)
    | some (Expression.instruction i args) =>
      let asm := assembleInstruction (i, args)
      let st1 :=
        match asm.2 with
        | some recalc =>
          { st with valuesToRecalculate := st.valuesToRecalculate ++ [(st.org, recalc)] }
        | none => st
      match emit st1 (Int.ofNat asm.1) with
      | .error e => .error e
      | .ok st2 => .ok (st2, index + 1)
    | some (Expression.directive d args) =>
      if d = D_ORG then
        match tokenStreamAsNumber (args.getD 0 []) with
        | none => .error (st.lineNumber, ("Token stream cannot be expressed as a number!"))
        | some n => .ok ({ st with org := n }, index + 1)
      else if d = D_TIMES then
        match tokenStreamAsNumber (args.getD 0 []) with
        | none => .error (st.lineNumber, ("Token stream cannot be expressed as a number!"))
        | some n =>
          match emitTimes (emitExpression es fuel (index + 1)) n st with
          | .error e => .error e
          | .ok st1 => .ok (st1, index + 2)
      else if d = D_DV then
        let st1 :=
          { st with valuesToRecalculate := st.valuesToRecalculate ++ [(st.org, args.getD 0 [])] }
        match emit st1 0 with
        | .error e => .error e
        | .ok st2 => .ok (st2, index + 1)
      else .ok (st, index + 1)

/-- The driver loop `for(let i = 0; i < expressions.length; i = emitExpression(i))`. -/
def runExpressions (es : List Expression) : Nat → Nat → AsmState → Except (Int × String) AsmState
  | 0, _, st => .error (st.lineNumber, ("RangeError: maximum call stack size exceeded"))
  | fuel + 1, index, st =>
    if index < es.length then
      match emitExpression es (es.length + 1) index st with
      | .error e => .error e
      | .ok (st1, index1) => runExpressions es fuel index1 st1
    else .ok st

/-! ## The relocation pass and its expression evaluator -/

/-- JavaScript `ToInt32`: wrap into the signed 32-bit range.  Applied to
both operands of `|=`. -/
def toInt32 (x : Int) : Int :=
  let m := x % 4294967296
  if 2147483648 ≤ m then m - 4294967296 else m

/-- The combination `memory[address] |= evaluated` performed by the
relocation pass: both sides coerced to 32-bit integers, then bitwise OR. -/
def relocCombine (old v : Int) : Int :=
  toInt32 (Int.lor (toInt32 old) (toInt32 v))

/-- Rendering of one token value (`e[1].toString()`).  `T_LABEL_MAKER`
and `T_COMMA` carry `null`, on which `.toString()` throws, hence `none`. -/
def renderToken : Token → Option String
  | Token.ident s => some s
  | Token.number n => some (toString n)
  | Token.arith c => some (String.singleton c)
  | Token.instruction i => some (toString i)
  | Token.directive i => some (toString i)
  | Token.linenum n => some (toString n)
  | Token.labelMarker => none
  | Token.comma => none

/-- `value.map(e => e[1].toString()).join('')`. -/
def renderTokens : List Token → Option String
  | [] => some ("")
  | t :: ts =>
    match renderToken t, renderTokens ts with
    | some s, some r => some (s ++ r)
    | _, _ => none

/-- Tokens of the modelled JavaScript expression grammar. -/
inductive JTok where
  | num (n : Nat)
  | ident (s : String)
  | op (c : Char)
deriving DecidableEq, Repr

def isDigitChar (c : Char) : Bool := 48 ≤ c.toNat && c.toNat ≤ 57

def isJsIdentCont (c : Char) : Bool := isLetter c || isDigitChar c

/-- Lexing of the joined string, as JavaScript's expression grammar does:
decimal digit runs are numeric literals (a letter directly after a digit
run is a syntax error, as in JavaScript), letter-led alphanumeric runs
are identifiers — note that this is where adjacent source tokens fuse,
e.g. tokens `A`,`1` render to the single identifier `A1` — and the five
arithmetic punctuators stand alone. -/
def jsLexChars : Nat → List Char → Except String (List JTok)
  | 0, _ => .error ("RangeError: maximum call stack size exceeded")
  | _ + 1, [] => .ok []
  | fuel + 1, c :: rest =>
    if isDigitChar c then
      match (rest.dropWhile isDigitChar).head? with
      | some d =>
        if isLetter d then .error ("SyntaxError: invalid or unexpected token")
        else
          (jsLexChars fuel (rest.dropWhile isDigitChar)).map
            (JTok.num (digitsToNat (c :: rest.takeWhile isDigitChar)) :: ·)
      | none =>
        (jsLexChars fuel (rest.dropWhile isDigitChar)).map
          (JTok.num (digitsToNat (c :: rest.takeWhile isDigitChar)) :: ·)
    else if isLetter c then
      (jsLexChars fuel (rest.dropWhile isJsIdentCont)).map
        (JTok.ident (String.mk (c :: rest.takeWhile isJsIdentCont)) :: ·)
    else if SYMBOLS.contains c then (jsLexChars fuel rest).map (JTok.op c :: ·)
    else .error ("SyntaxError: invalid or unexpected token")

/-- Label tables as used during evaluation. -/
abbrev LabelTable := List (String × Nat)

/-- JavaScript values reachable by evaluating a deferred expression:
integers (number literals, label addresses and their arithmetic), `NaN`
(failed numeric coercions), and strings (the script's own constants and
`+`-concatenations).  The array constant `INSTRUCTIONS` is modelled by
its `toString` join, which coerces identically in every operator of the
grammar and at the final `ToInt32`. -/
inductive JsVal where
  | int (n : Int)
  | nan
  | str (s : String)
deriving DecidableEq, Repr

/-- JavaScript `ToString` on the modelled values. -/
def toStringJs : JsVal → String
  | JsVal.int n => toString n
  | JsVal.nan => ("NaN")
  | JsVal.str s => s

/-- JavaScript `ToNumber` on a string of the reachable value space
(`none` is `NaN`): the empty string is 0, an optional minus sign
followed by digits is a decimal integer, anything else is `NaN`. -/
def jsStringToNumber (s : String) : Option Int :=
  match s.toList with
  | [] => some 0
  | '-' :: rest =>
    if rest.isEmpty then none
    else if rest.all isDigitChar then some (-(digitsToNat rest : Int)) else none
  | l => if l.all isDigitChar then some ((digitsToNat l : Int)) else none

/-- JavaScript `ToNumber` (`none` is `NaN`). -/
def toNumberJs : JsVal → Option Int
  | JsVal.int n => some n
  | JsVal.nan => none
  | JsVal.str s => jsStringToNumber s

/-- JavaScript `+`: string concatenation when either operand is a
string, numeric addition (with `NaN` propagation) otherwise. -/
def jsAdd (a b : JsVal) : JsVal :=
  match a, b with
  | JsVal.str _, _ => .str (toStringJs a ++ toStringJs b)
  | _, JsVal.str _ => .str (toStringJs a ++ toStringJs b)
  | _, _ =>
    match toNumberJs a, toNumberJs b with
    | some x, some y => .int (x + y)
    | _, _ => .nan

/-- JavaScript `-`: both operands through `ToNumber`. -/
def jsSub (a b : JsVal) : JsVal :=
  match toNumberJs a, toNumberJs b with
  | some x, some y => .int (x - y)
  | _, _ => .nan

/-- JavaScript `*`: both operands through `ToNumber`. -/
def jsMul (a b : JsVal) : JsVal :=
  match toNumberJs a, toNumberJs b with
  | some x, some y => .int (x * y)
  | _, _ => .nan

/-- JavaScript unary `-`. -/
def jsNeg (a : JsVal) : JsVal :=
  match toNumberJs a with
  | some x => .int (-x)
  | none => .nan

/-- JavaScript unary `+` (`ToNumber`). -/
def jsUnaryPlus (a : JsVal) : JsVal :=
  match toNumberJs a with
  | some x => .int x
  | none => .nan

/-- The scope chain above the `with(labels)` object, as determined by
the source file itself: the script's top-level constants whose names can
arise as a single identifier token of this assembler (uppercase letters
and digits, no underscore, not an instruction mnemonic) — `NUMBERS`,
`SYMBOLS` and `INSTRUCTIONS` (`src/assembler.js` lines 12-30), with the
array rendered as its `toString` join.  Every other binding of the
script (constants and functions with underscores or lowercase letters in
their names, and the locals of `assembler`) can never be named by a
deferred identifier.  Globals of a particular host environment are not
part of the source and are outside the model. -/
def scriptScope (s : String) : Option JsVal :=
  if s = ("NUMBERS") then some (JsVal.str ("1234567890"))
  else if s = ("SYMBOLS") then some (JsVal.str ("+-*()"))
  else if s = ("INSTRUCTIONS") then
    some (JsVal.str ("~,TAKE,ADD,SUB,SAVE,JMP,TST,INC,DEC,NULL,HLT"))
  else none

/-- Parsing modes of the recursive-descent evaluator: the additive level
and its left-associative continuation loop, the multiplicative level and
its loop, an optional unary sign, and primaries. -/
inductive PMode where
  | addsub
  | addsubLoop (acc : JsVal)
  | multerm
  | mulLoop (acc : JsVal)
  | factor
  | primary
deriving DecidableEq, Repr

/-- Recursive-descent evaluation of the lexed expression string with
JavaScript precedence and associativity: `addsub` handles `+ -`,
`multerm` handles `*`, `factor` an optional unary sign, `primary`
literals, identifier lookups — the label table first (the `with(labels)`
object), then the script's own constants (`scriptScope`); a name found
in neither is the `ReferenceError` — and parentheses.  The structural fuel bounds the
number of parsing steps; every step either descends one grammar level or
consumes a token, so the ample fuel passed by `jsEvalString` is never
exhausted. -/
def parseRun (L : LabelTable) : Nat → PMode → List JTok → Except String (JsVal × List JTok)
  | 0, _, _ => .error ("RangeError: maximum call stack size exceeded")
  | fuel + 1, PMode.addsub, ts =>
    match parseRun L fuel PMode.multerm ts with
    | .error e => .error e
    | .ok (v, rest) => parseRun L fuel (PMode.addsubLoop v) rest
  | fuel + 1, PMode.addsubLoop acc, ts =>
    match ts with
    | JTok.op c :: rest =>
      if c = '+' then
        match parseRun L fuel PMode.multerm rest with
        | .error e => .error e
        | .ok (v, rest2) => parseRun L fuel (PMode.addsubLoop (jsAdd acc v)) rest2
      else if c = '-' then
        match parseRun L fuel PMode.multerm rest with
        | .error e => .error e
        | .ok (v, rest2) => parseRun L fuel (PMode.addsubLoop (jsSub acc v)) rest2
      else .ok (acc, JTok.op c :: rest)
    | _ => .ok (acc, ts)
  | fuel + 1, PMode.multerm, ts =>
    match parseRun L fuel PMode.factor ts with
    | .error e => .error e
    | .ok (v, rest) => parseRun L fuel (PMode.mulLoop v) rest
  | fuel + 1, PMode.mulLoop acc, ts =>
    match ts with
    | JTok.op c :: rest =>
      if c = '*' then
        match parseRun L fuel PMode.factor rest with
        | .error e => .error e
        | .ok (v, rest2) => parseRun L fuel (PMode.mulLoop (jsMul acc v)) rest2
      else .ok (acc, JTok.op c :: rest)
    | _ => .ok (acc, ts)
  | fuel + 1, PMode.factor, ts =>
    match ts with
    | JTok.op c :: rest =>
      if c = '-' then
        match parseRun L fuel PMode.primary rest with
        | .error e => .error e
        | .ok (v, rest2) => .ok (jsNeg v, rest2)
      else if c = '+' then
        match parseRun L fuel PMode.primary rest with
        | .error e => .error e
        | .ok (v, rest2) => .ok (jsUnaryPlus v, rest2)
      else parseRun L fuel PMode.primary (JTok.op c :: rest)
    | _ => parseRun L fuel PMode.primary ts
  | fuel + 1, PMode.primary, ts =>
    match ts with
    | JTok.num n :: rest => .ok (JsVal.int (n : Int), rest)
    | JTok.ident s :: rest =>
      match L.lookup s with
      | some a => .ok (JsVal.int (a : Int), rest)
      | none =>
        match scriptScope s with
        | some v => .ok (v, rest)
        | none => .error (s ++ (" is not defined"))
    | JTok.op c :: rest =>
      if c = '(' then
        match parseRun L fuel PMode.addsub rest with
        | .error e => .error e
        | .ok (v, rest2) =>
          match rest2 with
          | JTok.op c2 :: rest3 =>
            if c2 = ')' then .ok (v, rest3)
            else .error ("SyntaxError: missing closing parenthesis")
          | _ => .error ("SyntaxError: missing closing parenthesis")
      else .error ("SyntaxError: unexpected token")
    | [] => .error ("SyntaxError: unexpected end of input")

/-- Evaluation of a joined string: lex, parse with ample fuel, require
full consumption. -/
def jsEvalString (L : LabelTable) (s : String) : Except String JsVal :=
  match jsLexChars (s.length + 1) s.toList with
  | .error e => .error e
  | .ok jts =>
    match parseRun L (4 * jts.length + 8) PMode.addsub jts with
    | .error e => .error e
    | .ok (v, []) => .ok v
    | .ok (_, _ :: _) => .error ("SyntaxError: unexpected token")

/-- Evaluation of one deferred token stream: render and join the token
values, then evaluate.  `eval('')` yields `undefined`, which — like
`NaN` — the `|=` coerces to `0`; it is modelled as the non-numeric
value. -/
def evalDeferred (L : LabelTable) (ts : List Token) : Except String JsVal :=
  match renderTokens ts with
  | none => .error ("TypeError: cannot convert null to string")
  | some s => if s.isEmpty then .ok JsVal.nan else jsEvalString L s

/-- The relocation pass (`for(const [address, value] of
valuesToRecalculate)`): evaluate each entry in order and OR the result
into the recorded cell; the first failure aborts the whole pass. -/
def applyRelocs (L : LabelTable) : List (Nat × List Token) → List Int → Except String (List Int)
  | [], mem => .ok mem
  | (address, value) :: rest, mem =>
    match evalDeferred L value with
    | .error e => .error e
    | .ok v =>
      applyRelocs L rest
        (mem.set address (relocCombine (mem.getD address 0)
          (match toNumberJs v with
           | some n => n
           | none => 0)))

/-- The assembler: first pass (wrapped by the `try`/`catch` with
`Error while assembling line ...`), then the relocation pass, which sits
*outside* the `try`/`catch` — its errors propagate unwrapped. -/
def assembler (es : List Expression) : Except String (List Int) :=
  match runExpressions es (es.length + 1) 0 initState with
  | .error e => .error (("Error while assembling line ") ++ toString e.1 ++ (": ") ++ e.2)
  | .ok st => applyRelocs st.labels st.valuesToRecalculate st.memory

/-- Lexing followed by parsing, the input to code generation. -/
def parseSource (s : List Char) : Except String (List Expression) :=
  match lexer s with
  | .error e => .error e
  | .ok ts => parser ts

/-- The whole translation pipeline `assembler(parser(lexer(text)))`. -/
def pipeline (s : List Char) : Except String (List Int) :=
  match parseSource s with
  | .error e => .error e
  | .ok es => assembler es

deriving instance DecidableEq for Except

/-! ## Basic facts about the embedding -/

theorem char_toNat_ofNatAux (n : Nat) (h : Nat.isValidChar n) :
    (Char.ofNatAux n h).toNat = n := rfl

theorem jsToUpper_idem (c : Char) : jsToUpper (jsToUpper c) = jsToUpper c := by
  by_cases h : 97 ≤ c.toNat ∧ c.toNat ≤ 122
  · have h1 : jsToUpper c = Char.ofNatAux (c.toNat - 32) (Or.inl (by omega)) := dif_pos h
    rw [h1]
    unfold jsToUpper
    rw [dif_neg]
    rw [char_toNat_ofNatAux]
    omega
  · rw [show jsToUpper c = c from dif_neg h, show jsToUpper c = c from dif_neg h]

/-! ## Claim C1 -/

/-- Claim C1 (code bug): in any parser output a `#TIMES` directive is
never directly followed by an instruction expression — the argument
collector consumes every same-line token and the following line break
contributes a line-marker expression in between.  Repeating the *single
next expression* therefore repeats that line marker, and the instruction
on the next line is emitted exactly once: assembling `#TIMES 3` followed
by `HLT` on the next line yields one `HLT` word (10000) at address 0 and
zeroes after it, not three consecutive copies, and the origin advances by
1, not by 3. -/
theorem c1_repeat_next_repeats_line_marker :
    parseSource ("#TIMES 3\nHLT".toList) =
      .ok [Expression.linenum 1, Expression.directive 1 [[Token.number 3]],
           Expression.linenum 2, Expression.instruction 10 [], Expression.linenum 3] ∧
    (pipeline ("#TIMES 3\nHLT".toList)).map
      (fun m => (m.length, m.getD 0 0, m.getD 1 0, m.getD 2 0)) = .ok (1000, 10000, 0, 0) :=
  ⟨rfl, rfl⟩

/-! ## Claim C2 -/

/-- Claim C2 (code bug): the capacity check `org > memory.length` does
not fire for the write at `org = memory.length`, and that boundary
assignment grows the JavaScript array, so sequential emission walks past
the last cell without ever failing: `#ORG 1000` followed by `HLT`
assembles *successfully*, places the word 10000 at index 1000 — at the
memory capacity — and returns an image of 1001 cells, where the claim
demands a capacity failure before any write at or past index 1000. -/
theorem c2_boundary_write_not_prevented :
    (pipeline ("#ORG 1000\nHLT".toList)).map
      (fun m => (m.length, m.getD 1000 0, m.getD 999 0)) = .ok (1001, 10000, 0) := rfl

/-! ## Claim C3 -/

/-- Claim C3, counterexample: tokenization is *not* case-insensitive.
The lowercase source `take` maps under character uppercasing to `TAKE`,
yet lexes to a different token sequence (four one-letter identifiers
instead of one mnemonic token), because `collectWhile` matches the raw
continuation characters against the uppercase-only character classes. -/
theorem c3_lowercase_text_lexes_differently :
    ("take".toList.map jsToUpper = "TAKE".toList) ∧
      lexer ("take".toList) ≠ lexer ("TAKE".toList) := by
  refine ⟨rfl, ?_⟩
  decide

/-- Claim C3, amended: only the character the lexer dispatches on is
normalized (`peek`/`next` uppercase it), so replacing the first character
of the input by its uppercase form never changes the token sequence;
continuation characters collected by `collectWhile` are matched
case-sensitively, which is what makes the lowercase word `take` lex
differently from `TAKE`; the full pipeline is case-insensitive only
because the caller (`runAssembly`) uppercases the whole source before
lexing. -/
theorem c3_lexer_uppercases_dispatch_char (c : Char) (rest : List Char) :
    lexer (c :: rest) = lexer (jsToUpper c :: rest) := by
  show (lexLoop ((rest.length + 2) + 1) (c :: (rest ++ ['\n'])) 1).map _ =
    (lexLoop ((rest.length + 2) + 1) (jsToUpper c :: (rest ++ ['\n'])) 1).map _
  simp only [lexLoop]
  rw [jsToUpper_idem]

/-! ## Claim C8 -/

/-- Claim C8, counterexample: the OR-combination is *not* the sum for
every operand below the opcode multiplier.  For opcode index 1 (`TAKE`)
and operand 8, `(1*1000) | 8 = 1000 ≠ 1008`, because `1000` already has
bit 3 set; accordingly the whole pipeline assembles `TAKE 8` to the word
1000, silently losing the operand. -/
theorem c8_or_differs_from_add_at_operand_8 :
    relocCombine ((1000 * 1 : Nat) : Int) ((8 : Nat) : Int) ≠ ((1000 * 1 + 8 : Nat) : Int) ∧
      relocCombine ((1000 * 1 : Nat) : Int) ((8 : Nat) : Int) = 1000 ∧
      (pipeline ("TAKE 8".toList)).map (fun m => m.getD 0 0) = .ok 1000 := by
  refine ⟨by decide, by decide, rfl⟩

/-- Claim C8, amended: the OR-combination used by the relocation pass
(`relocCombine`) agrees with addition only when the packed words share no
set bits.  Since every base word `k*1000` is a multiple of 8, this holds
for every opcode index `k` of the instruction table (1 ≤ k ≤ 10) and
every operand `v < 8` — in particular for the spec's own example
`TAKE 5` — but not for all `v < 1000` (see the counterexample at
`v = 8`). -/
theorem c8_or_equals_add_for_low_operands :
    ∀ k : Nat, k < 11 → 1 ≤ k → ∀ v : Nat, v < 8 →
      relocCombine ((1000 * k : Nat) : Int) ((v : Nat) : Int) = ((1000 * k + v : Nat) : Int) := by
  decide

/-- Witness for `c8_or_equals_add_for_low_operands` at the spec's example
`TAKE 5`: opcode index 1, operand 5. -/
theorem c8_or_equals_add_for_low_operands_witness :
    relocCombine ((1000 * 1 : Nat) : Int) ((5 : Nat) : Int) = ((1000 * 1 + 5 : Nat) : Int) :=
  c8_or_equals_add_for_low_operands 1 (by decide) (by decide) 5 (by decide)

/-! ## Claim C7 -/

/-- Claim C7, counterexample: a relocation-pass failure is *not* reported
wrapped with a source line number.  Assembling `TAKE X` (with `X`
undeclared) fails during relocation and the error surfaces verbatim as
the evaluator's message — it does not carry the
`Error while assembling line N:` wrapper that first-pass errors receive,
because the relocation loop sits outside the `try`/`catch`. -/
theorem c7_relocation_error_not_line_wrapped :
    pipeline ("TAKE X".toList) = .error ("X is not defined") ∧
      (("Error while assembling line ").toList.isPrefixOf (("X is not defined").toList)) = false :=
  ⟨rfl, rfl⟩

/-- Claim C7, amended: a fatal error in the relocation pass aborts before
any further relocation is applied — the entries after the failing one are
arbitrary and never consulted — and the error propagates unwrapped, as
exactly the evaluator's message (no source line annotation; the
`try`/`catch` covers only the first pass). -/
theorem c7_relocation_error_aborts_unwrapped (L : LabelTable) (address : Nat)
    (value : List Token) (rest : List (Nat × List Token)) (mem : List Int) (msg : String)
    (h : evalDeferred L value = .error msg) :
    applyRelocs L ((address, value) :: rest) mem = .error msg := by
  simp [applyRelocs, h]

/-- Witness for `c7_relocation_error_aborts_unwrapped`: the deferred
operand of `TAKE X` with an empty label table. -/
theorem c7_relocation_error_aborts_unwrapped_witness :
    evalDeferred [] [Token.ident ("X")] = .error (("X") ++ (" is not defined")) ∧
      applyRelocs [] [(0, [Token.ident ("X")])] (List.replicate 1000 0) =
        .error (("X") ++ (" is not defined")) :=
  ⟨rfl, c7_relocation_error_aborts_unwrapped [] 0 [Token.ident ("X")] []
    (List.replicate 1000 0) (("X") ++ (" is not defined")) rfl⟩

/-! ## Claim C9 -/

/-- Identifier shape produced by the lexer and accepted by the evaluator:
a letter followed by letters and digits. -/
def validIdentName (s : String) : Bool :=
  match s.toList with
  | [] => false
  | c :: cs => isLetter c && cs.all isJsIdentCont

theorem isLetter_not_digit {c : Char} (h : isLetter c = true) : isDigitChar c = false := by
  simp only [isLetter, Bool.and_eq_true, decide_eq_true_eq] at h
  cases hd : isDigitChar c
  · rfl
  · exfalso
    simp only [isDigitChar, Bool.and_eq_true, decide_eq_true_eq] at hd
    omega

theorem string_mk_toList (s : String) : String.mk s.toList = s := rfl

/-- Lexing the rendered string of a single identifier token yields that
identifier. -/
theorem jsLexChars_ident (s : String) (h : validIdentName s = true) :
    jsLexChars (s.length + 1) s.toList = .ok [JTok.ident s] := by
  unfold validIdentName at h
  split at h
  · exact absurd h (by simp)
  · rename_i c cs hs
    have hlen : s.length = cs.length + 1 := by
      show s.toList.length = cs.length + 1
      rw [hs]
      rfl
    simp only [Bool.and_eq_true] at h
    have htake : cs.takeWhile isJsIdentCont = cs :=
      List.takeWhile_eq_self_iff.mpr (by
        intro x hx
        exact List.all_eq_true.mp h.2 x hx)
    have hdrop : cs.dropWhile isJsIdentCont = [] :=
      List.dropWhile_eq_nil_iff.mpr (by
        intro x hx
        exact List.all_eq_true.mp h.2 x hx)
    rw [hlen, hs]
    show jsLexChars (cs.length + 1 + 1) (c :: cs) = .ok [JTok.ident s]
    simp only [jsLexChars, isLetter_not_digit h.1, h.1]
    rw [htake, hdrop]
    simp only [jsLexChars, Except.map]
    rw [show String.mk (c :: cs) = s from hs ▸ string_mk_toList s]
    simp

/-- Parsing a lone identifier resolves it along the scope chain: the
label table first, then the script's own constants; a name found in
neither is the `ReferenceError`. -/
theorem parseRun_single_ident (L : LabelTable) (s : String) (fuel : Nat) :
    parseRun L (fuel + 4) PMode.addsub [JTok.ident s] =
      match L.lookup s with
      | some a => .ok (JsVal.int ((a : Nat) : Int), [])
      | none =>
        match scriptScope s with
        | some v => .ok (v, [])
        | none => .error (s ++ (" is not defined")) := by
  cases hl : L.lookup s
  · cases hsc : scriptScope s <;> simp [parseRun, hl, hsc]
  · simp [parseRun, hl]

theorem string_isEmpty_false (s : String) (c : Char) (cs : List Char)
    (hs : s.toList = c :: cs) : s.isEmpty = false := by
  cases he : s.isEmpty
  · rfl
  · exfalso
    rw [String.isEmpty_iff] at he
    rw [he] at hs
    exact absurd hs (by simp [String.toList])

/-- Evaluation of a deferred stream that is exactly one identifier
token: a label-table lookup, then the script's own constants, failing
with the `ReferenceError` message when the name resolves in neither. -/
theorem evalDeferred_single_ident (L : LabelTable) (s : String) (h : validIdentName s = true) :
    evalDeferred L [Token.ident s] =
      match L.lookup s with
      | some a => .ok (JsVal.int ((a : Nat) : Int))
      | none =>
        match scriptScope s with
        | some v => .ok v
        | none => .error (s ++ (" is not defined")) := by
  obtain ⟨c, cs, hs⟩ : ∃ c cs, s.toList = c :: cs := by
    unfold validIdentName at h
    split at h
    · exact absurd h (by simp)
    · rename_i c cs hs
      exact ⟨c, cs, hs⟩
  unfold evalDeferred
  simp only [renderTokens, renderToken, String.append_empty]
  rw [string_isEmpty_false s c cs hs]
  simp only [Bool.false_eq_true, if_false]
  unfold jsEvalString
  rw [jsLexChars_ident s h]
  dsimp only
  rw [show 4 * [JTok.ident s].length + 8 = 8 + 4 from rfl]
  rw [parseRun_single_ident L s 8]
  cases hl : L.lookup s
  · cases hsc : scriptScope s <;> simp [hl, hsc]
  · simp [hl]

/-- A relocation list containing any entry whose evaluation fails never
completes: the pass aborts with an error. -/
theorem applyRelocs_error_of_mem (L : LabelTable) :
    ∀ (entries : List (Nat × List Token)) (a : Nat) (v : List Token) (msg : String),
      (a, v) ∈ entries → evalDeferred L v = .error msg →
      ∀ mem, ∃ m2, applyRelocs L entries mem = .error m2 := by
  intro entries
  induction entries with
  | nil => intro a v msg hmem _ _; exact absurd hmem (by simp)
  | cons e rest ih =>
    intro a v msg hmem hv mem
    obtain ⟨a0, v0⟩ := e
    simp only [applyRelocs]
    cases he : evalDeferred L v0 with
    | error e2 => exact ⟨e2, rfl⟩
    | ok w =>
      rcases List.mem_cons.mp hmem with heq | hmem2
      · obtain ⟨rfl, rfl⟩ := Prod.mk.injEq .. ▸ heq
        rw [hv] at he
        exact absurd he (by simp)
      · exact ih a v msg hmem2 hv _

/-- Claim C9, amended: identifier resolution in the relocation pass is
not confined to the label table — `eval` resolves names up the
`with(labels)` scope chain.  When a deferred expression is a single
identifier that resolves *nowhere in the source's scope* — absent from
the label table and matching none of the script's own constants
(`scriptScope`) — the relocation pass fails with the unresolved-symbol
`ReferenceError` and the run returns no memory image.  (Globals of a
particular host environment are outside the source and the embedding;
the witness name `X` is defined by no standard host.)  The general
phrasing of the claim fails in two ways, both in the counterexample:
joined token values can fuse into a *different, defined* identifier, and
an absent-from-table identifier can resolve to a script constant such as
`NUMBERS`, letting assembly succeed. -/
theorem c9_unresolved_single_identifier_fails (es : List Expression) (st : AsmState)
    (address : Nat) (s : String)
    (h1 : runExpressions es (es.length + 1) 0 initState = .ok st)
    (h2 : (address, [Token.ident s]) ∈ st.valuesToRecalculate)
    (h3 : st.labels.lookup s = none)
    (h4 : validIdentName s = true)
    (h5 : scriptScope s = none) :
    ∃ msg, assembler es = .error msg := by
  have hev : evalDeferred st.labels [Token.ident s] = .error (s ++ (" is not defined")) := by
    rw [evalDeferred_single_ident _ _ h4, h3, h5]
  obtain ⟨m2, hm⟩ := applyRelocs_error_of_mem st.labels st.valuesToRecalculate address
    [Token.ident s] (s ++ (" is not defined")) h2 hev st.memory
  refine ⟨m2, ?_⟩
  simp only [assembler, h1, hm]

/-- Witness for `c9_unresolved_single_identifier_fails`: the parsed form
of `TAKE X` with `X` neither declared as a label nor a script
constant. -/
theorem c9_unresolved_single_identifier_fails_witness :
    ∃ msg, assembler [Expression.linenum 1,
      Expression.instruction 1 [[Token.ident ("X")]], Expression.linenum 2] = .error msg :=
  c9_unresolved_single_identifier_fails
    [Expression.linenum 1, Expression.instruction 1 [[Token.ident ("X")]], Expression.linenum 2]
    { memory := (List.replicate 1000 0).set 0 1000,
      valuesToRecalculate := [(0, [Token.ident ("X")])],
      labels := [], org := 1, lineNumber := 2 }
    0 ("X") rfl (by decide) rfl (by decide) (by decide)

/-- Claim C9, counterexample: an identifier absent from the label table
need not make relocation fail.  First escape, token fusion: the program
`A1:` followed by `TAKE A 1` records the deferred stream `[A, 1]`, whose
identifier `A` is absent from the label table (which holds only `A1`);
yet the run *returns a memory image*, because the joined string `A1`
resolves to the label `A1`.  Second escape, the scope chain: `TAKE
NUMBERS` defers the single identifier `NUMBERS`, absent from the (empty)
label table; `eval` resolves it to the script's own constant
`"1234567890"` and assembly succeeds, ORing the coerced number into the
cell (`1000 ||| 1234567890 = 1234568186`). -/
theorem c9_fused_identifier_resolves :
    parseSource ("A1:\nTAKE A 1".toList) =
      .ok [Expression.linenum 1, Expression.label ("A1"), Expression.linenum 2,
           Expression.instruction 1 [[Token.ident ("A"), Token.number 1]], Expression.linenum 3] ∧
    runExpressions [Expression.linenum 1, Expression.label ("A1"), Expression.linenum 2,
        Expression.instruction 1 [[Token.ident ("A"), Token.number 1]], Expression.linenum 3]
        6 0 initState =
      .ok { memory := (List.replicate 1000 0).set 0 1000,
            valuesToRecalculate := [(0, [Token.ident ("A"), Token.number 1])],
            labels := [(("A1"), 0)], org := 1, lineNumber := 3 } ∧
    List.lookup ("A") [(("A1"), 0)] = none ∧
    (pipeline ("A1:\nTAKE A 1".toList)).map (fun m => m.getD 0 0) = .ok 1000 ∧
    parseSource ("TAKE NUMBERS".toList) =
      .ok [Expression.linenum 1, Expression.instruction 1 [[Token.ident ("NUMBERS")]],
           Expression.linenum 2] ∧
    List.lookup ("NUMBERS") ([] : LabelTable) = none ∧
    (pipeline ("TAKE NUMBERS".toList)).map (fun m => (m.length, m.getD 0 0)) =
      .ok (1000, 1234568186) :=
  ⟨rfl, rfl, rfl, rfl, rfl, rfl, rfl⟩

/-! ## Claim C4 -/

theorem emit_memory_mono {st : AsmState} {n : Int} {st' : AsmState}
    (h : emit st n = .ok st') : st.memory.length ≤ st'.memory.length := by
  unfold emit at h
  split at h
  · cases h
  · cases h
    dsimp only
    split
    · rw [List.length_set]
    · simp

theorem emitTimes_memory_mono (f : AsmState → Except (Int × String) (AsmState × Nat))
    (hf : ∀ st r, f st = .ok r → st.memory.length ≤ r.1.memory.length) :
    ∀ (n : Nat) (st st' : AsmState), emitTimes f n st = .ok st' →
      st.memory.length ≤ st'.memory.length := by
  intro n
  induction n with
  | zero =>
    intro st st' h
    cases h
    exact Nat.le_refl _
  | succ n ih =>
    intro st st' h
    simp only [emitTimes] at h
    cases hf1 : f st with
    | error e => rw [hf1] at h; cases h
    | ok r =>
      rw [hf1] at h
      obtain ⟨st1, i⟩ := r
      exact Nat.le_trans (hf st (st1, i) hf1) (ih st1 st' h)

theorem emitExpression_memory_mono :
    ∀ (fuel : Nat) (es : List Expression) (index : Nat) (st : AsmState) (r : AsmState × Nat),
      emitExpression es fuel index st = .ok r → st.memory.length ≤ r.1.memory.length := by
  intro fuel
  induction fuel with
  | zero => intro es index st r h; cases h
  | succ fuel ih =>
    intro es index st r h
    simp only [emitExpression] at h
    cases hg : es[index]? with
    | none => rw [hg] at h; cases h
    | some e =>
      rw [hg] at h
      match e with
      | Expression.linenum n => cases h; exact Nat.le_refl _
      | Expression.label s => cases h; exact Nat.le_refl _
      | Expression.instruction i args =>
        dsimp only at h
        cases hemit : emit (match (assembleInstruction (i, args)).2 with
          | some recalc =>
            { st with valuesToRecalculate := st.valuesToRecalculate ++ [(st.org, recalc)] }
          | none => st) (Int.ofNat (assembleInstruction (i, args)).1) with
        | error e2 => rw [hemit] at h; cases h
        | ok st2 =>
          rw [hemit] at h
          cases h
          have h2 := emit_memory_mono hemit
          cases hr : (assembleInstruction (i, args)).2 <;> rw [hr] at h2 <;> exact h2
      | Expression.directive d args =>
        dsimp only at h
        split at h
        · cases ht : tokenStreamAsNumber (args.getD 0 []) with
          | none => rw [ht] at h; cases h
          | some n => rw [ht] at h; cases h; exact Nat.le_refl _
        · split at h
          · cases ht : tokenStreamAsNumber (args.getD 0 []) with
            | none => rw [ht] at h; cases h
            | some n =>
              rw [ht] at h
              dsimp only at h
              cases he : emitTimes (emitExpression es fuel (index + 1)) n st with
              | error e2 => rw [he] at h; cases h
              | ok st1 =>
                rw [he] at h
                cases h
                exact emitTimes_memory_mono _ (fun st r hr => ih es (index + 1) st r hr) n st st1 he
          · split at h
            · cases hemit : emit
                { st with valuesToRecalculate := st.valuesToRecalculate ++ [(st.org, args.getD 0 [])] }
                0 with
              | error e2 => rw [hemit] at h; cases h
              | ok st2 =>
                rw [hemit] at h
                cases h
                have h2 := emit_memory_mono hemit
                exact h2
            · cases h; exact Nat.le_refl _

theorem runExpressions_memory_mono :
    ∀ (fuel : Nat) (es : List Expression) (index : Nat) (st st' : AsmState),
      runExpressions es fuel index st = .ok st' → st.memory.length ≤ st'.memory.length := by
  intro fuel
  induction fuel with
  | zero => intro es index st st' h; cases h
  | succ fuel ih =>
    intro es index st st' h
    simp only [runExpressions] at h
    split at h
    · cases he : emitExpression es (es.length + 1) index st with
      | error e => rw [he] at h; cases h
      | ok r =>
        rw [he] at h
        obtain ⟨st1, i1⟩ := r
        exact Nat.le_trans (emitExpression_memory_mono _ es index st (st1, i1) he)
          (ih es i1 st1 st' h)
    · cases h; exact Nat.le_refl _

theorem applyRelocs_length (L : LabelTable) :
    ∀ (entries : List (Nat × List Token)) (mem mem' : List Int),
      applyRelocs L entries mem = .ok mem' → mem'.length = mem.length := by
  intro entries
  induction entries with
  | nil => intro mem mem' h; cases h; rfl
  | cons e rest ih =>
    intro mem mem' h
    obtain ⟨a, v⟩ := e
    simp only [applyRelocs] at h
    cases he : evalDeferred L v with
    | error e2 => rw [he] at h; cases h
    | ok w =>
      rw [he] at h
      rw [ih _ _ h, List.length_set]

/-- Claim C4, amended: every successful assembly returns a memory image
of **at least** 1000 cells (the zero-initialized image never shrinks);
it is not always exactly 1000, because a write at the boundary cell
grows the array instead of failing — see the counterexample. -/
theorem c4_memory_length_at_least_capacity (es : List Expression) (m : List Int)
    (h : assembler es = .ok m) : 1000 ≤ m.length := by
  unfold assembler at h
  cases hr : runExpressions es (es.length + 1) 0 initState with
  | error e => rw [hr] at h; cases h
  | ok st =>
    rw [hr] at h
    have h1 : (1000 : Nat) ≤ st.memory.length := by
      have h2 := runExpressions_memory_mono _ es 0 initState st hr
      simpa [initState] using h2
    rw [applyRelocs_length _ _ _ _ h]
    exact h1

/-- Witness for `c4_memory_length_at_least_capacity`: the empty program. -/
theorem c4_memory_length_at_least_capacity_witness :
    assembler [] = .ok (List.replicate 1000 (0 : Int)) ∧
      1000 ≤ (List.replicate 1000 (0 : Int)).length :=
  ⟨rfl, c4_memory_length_at_least_capacity [] (List.replicate 1000 (0 : Int)) rfl⟩

/-- Claim C4, counterexample: the program `#ORG 999`, `HLT`, `HLT`
assembles successfully yet returns an image of 1001 cells — the second
`HLT` is written at index 1000, growing the array past the declared
capacity instead of failing. -/
theorem c4_successful_run_exceeding_capacity :
    (pipeline ("#ORG 999\nHLT\nHLT".toList)).map List.length = .ok 1001 := rfl

/-! ## Claim C5 -/

theorem toInt32_of_small (x : Int) (h0 : 0 ≤ x) (h1 : x < 2147483648) : toInt32 x = x := by
  simp only [toInt32]
  rw [Int.emod_eq_of_lt h0 (by omega)]
  rw [if_neg (by omega)]

theorem relocCombine_eq_lor_of_small (a b : Nat) (ha : a < 2147483648) (hb : b < 2147483648) :
    relocCombine ((a : Nat) : Int) ((b : Nat) : Int) = Int.lor ((a : Nat) : Int) ((b : Nat) : Int) := by
  have hlor : Int.lor ((a : Nat) : Int) ((b : Nat) : Int) = ((a ||| b : Nat) : Int) := rfl
  have hbound : (a ||| b) < 2147483648 := by
    have h2 : a ||| b < 2 ^ 31 := Nat.or_lt_two_pow (by norm_num; omega) (by norm_num; omega)
    norm_num at h2
    omega
  unfold relocCombine
  rw [toInt32_of_small ((a : Nat) : Int) (by omega) (by omega)]
  rw [toInt32_of_small ((b : Nat) : Int) (by omega) (by omega)]
  rw [hlor]
  rw [toInt32_of_small (((a ||| b : Nat) : Nat) : Int) (by omega) (by omega)]

/-- Claim C5: assembling a program that declares a label and then an
instruction whose single operand is that label (the exact parser output
of a source such as `L:` + newline + `TAKE L`) places, at the
instruction's address (0), the word `opcode*1000 ||| labelAddress`
(the label's recorded address being 0, the origin at its declaration). -/
theorem c5_label_then_instruction_packs_word (k : Nat) (s : String)
    (hk : k < 11) (harity : INSTRUCTION_ARG_LENGTHS.getD k 0 = 1)
    (hs : validIdentName s = true) :
    (assembler [Expression.linenum 1, Expression.label s, Expression.linenum 2,
        Expression.instruction k [[Token.ident s]], Expression.linenum 3]).map
      (fun m => m.getD 0 0) = .ok (Int.lor ((1000 * k : Nat) : Int) ((0 : Nat) : Int)) := by
  have hev : evalDeferred [(s, 0)] [Token.ident s] = .ok (JsVal.int ((0 : Nat) : Int)) := by
    rw [evalDeferred_single_ident _ _ hs]
    simp [List.lookup]
  have hrun : runExpressions [Expression.linenum 1, Expression.label s, Expression.linenum 2,
      Expression.instruction k [[Token.ident s]], Expression.linenum 3] 6 0 initState =
      .ok { memory := (List.replicate 1000 (0 : Int)).set 0 (Int.ofNat (1000 * k)),
            valuesToRecalculate := [(0, [Token.ident s])],
            labels := [(s, 0)], org := 1, lineNumber := 3 } := by
    simp [runExpressions, emitExpression, emit, assembleInstruction, initState]
  unfold assembler
  simp only [List.length_cons, List.length_nil]
  rw [show (0 + 1 + 1 + 1 + 1 + 1 + 1 : Nat) = 6 from rfl]
  rw [hrun]
  simp only [applyRelocs, hev, toNumberJs]
  have hget : ((List.replicate 1000 (0 : Int)).set 0 (Int.ofNat (1000 * k))).getD 0 0 =
      Int.ofNat (1000 * k) := by
    rw [List.getD_eq_getElem?_getD, List.getElem?_set_self (by simp)]
    rfl
  rw [hget]
  have hget2 : ∀ x : Int,
      (((List.replicate 1000 (0 : Int)).set 0 (Int.ofNat (1000 * k))).set 0 x).getD 0 0 = x := by
    intro x
    rw [List.getD_eq_getElem?_getD, List.getElem?_set_self (by simp)]
    rfl
  simp only [Except.map, hget2]
  rw [show (Int.ofNat (1000 * k)) = ((1000 * k : Nat) : Int) from rfl]
  rw [relocCombine_eq_lor_of_small (1000 * k) 0 (by omega) (by omega)]

/-- Witness for `c5_label_then_instruction_packs_word`: the parser output
of `L:` + newline + `TAKE L` (opcode index 1), yielding word 1000 at
address 0. -/
theorem c5_label_then_instruction_packs_word_witness :
    parseSource ("L:\nTAKE L".toList) =
      .ok [Expression.linenum 1, Expression.label ("L"), Expression.linenum 2,
           Expression.instruction 1 [[Token.ident ("L")]], Expression.linenum 3] ∧
    (1 : Nat) < 11 ∧ INSTRUCTION_ARG_LENGTHS.getD 1 0 = 1 ∧ validIdentName ("L") = true ∧
      (assembler [Expression.linenum 1, Expression.label ("L"), Expression.linenum 2,
          Expression.instruction 1 [[Token.ident ("L")]], Expression.linenum 3]).map
        (fun m => m.getD 0 0) = .ok (Int.lor ((1000 * 1 : Nat) : Int) ((0 : Nat) : Int)) :=
  ⟨rfl, by decide, by decide, by decide,
    c5_label_then_instruction_packs_word 1 ("L") (by decide) (by decide) (by decide)⟩

/-! ## Claim C6 -/

/-- Running the driver over a block of `k` zero-argument instructions
followed by a label declaration: the instructions emit their words, the
label records the final origin, and cells below the starting origin are
untouched. -/
theorem runExpressions_hlt_block (s : String) (es : List Expression) :
    ∀ (m fuel index : Nat) (st : AsmState),
      es.drop index = List.replicate m (Expression.instruction 10 []) ++ [Expression.label s] →
      index + m + 1 = es.length →
      st.org + m ≤ st.memory.length →
      m + 2 ≤ fuel →
      ∃ mem2,
        runExpressions es fuel index st =
          .ok { memory := mem2, valuesToRecalculate := st.valuesToRecalculate,
                labels := (s, st.org + m) :: st.labels, org := st.org + m,
                lineNumber := st.lineNumber } ∧
        mem2.length = st.memory.length ∧
        ∀ i, i < st.org → mem2.getD i 0 = st.memory.getD i 0 := by
  intro m
  induction m with
  | zero =>
    intro fuel index st hdrop hlen horg hfuel
    obtain ⟨f, rfl⟩ : ∃ f, fuel = f + 1 := ⟨fuel - 1, by omega⟩
    have hidx : es[index]? = some (Expression.label s) := by
      have h0 : (es.drop index)[0]? = some (Expression.label s) := by
        rw [hdrop]; rfl
      rw [List.getElem?_drop] at h0
      simpa using h0
    have hlt : index < es.length := by omega
    refine ⟨st.memory, ?_, rfl, fun i _ => rfl⟩
    simp only [runExpressions, if_pos hlt, emitExpression, hidx]
    obtain ⟨f2, rfl⟩ : ∃ f2, f = f2 + 1 := ⟨f - 1, by omega⟩
    simp only [runExpressions, if_neg (by omega : ¬ index + 1 < es.length)]
    simp [Nat.add_zero]
  | succ m ih =>
    intro fuel index st hdrop hlen horg hfuel
    obtain ⟨f, rfl⟩ : ∃ f, fuel = f + 1 := ⟨fuel - 1, by omega⟩
    have hidx : es[index]? = some (Expression.instruction 10 []) := by
      have h0 : (es.drop index)[0]? = some (Expression.instruction 10 []) := by
        rw [hdrop]; simp [List.replicate_succ]
      rw [List.getElem?_drop] at h0
      simpa using h0
    have hlt : index < es.length := by omega
    have hdrop2 : es.drop (index + 1) =
        List.replicate m (Expression.instruction 10 []) ++ [Expression.label s] := by
      have h1 : es.drop (index + 1) = (es.drop index).drop 1 := by
        rw [List.drop_drop]
      rw [h1, hdrop]
      rfl
    have horg2 : st.org < st.memory.length := by omega
    -- one driver step: the instruction is emitted
    have hstep : runExpressions es (f + 1) index st =
        runExpressions es f (index + 1)
          { st with memory := st.memory.set st.org (Int.ofNat 10000), org := st.org + 1 } := by
      simp only [runExpressions, if_pos hlt, emitExpression, hidx, assembleInstruction]
      simp only [List.head?, emit]
      rw [if_neg (by omega), if_pos horg2]
    rw [hstep]
    obtain ⟨mem2, hrun, hlen2, hpres⟩ := ih f (index + 1)
      { st with memory := st.memory.set st.org (Int.ofNat 10000), org := st.org + 1 }
      hdrop2 (by show index + 1 + m + 1 = es.length; omega)
      (by show st.org + 1 + m ≤ (st.memory.set st.org (Int.ofNat 10000)).length
          rw [List.length_set]; omega)
      (by omega)
    refine ⟨mem2, ?_, ?_, ?_⟩
    · rw [hrun]
      have he : st.org + 1 + m = st.org + (m + 1) := by omega
      simp only [he]
    · rw [hlen2]
      simp [List.length_set]
    · intro i hi
      have h3 := hpres i (by show i < st.org + 1; omega)
      rw [h3]
      simp only [List.getD_eq_getElem?_getD]
      rw [List.getElem?_set_ne (by omega : st.org ≠ i)]

/-- One iteration of the driver loop, fuel left symbolic. -/
theorem runExpressions_step (es : List Expression) (fuel index : Nat) (st : AsmState)
    (h : index < es.length) :
    runExpressions es (fuel + 1) index st =
      match emitExpression es (es.length + 1) index st with
      | .error e => .error e
      | .ok (st1, index1) => runExpressions es fuel index1 st1 := by
  simp only [runExpressions, if_pos h]

/-- Claim C6: forward references are legal.  For the program `#DV s`
followed by `k` zero-argument instructions and then the declaration
`s:`, the declare-value cell (address 0) is filled with `k + 1` — the
origin value the label receives at its later declaration point — because
the deferred expression is evaluated only after the whole walk completed
the label table. -/
theorem c6_forward_reference_resolves (s : String) (k : Nat)
    (hs : validIdentName s = true) (hk : k ≤ 999) :
    (assembler (Expression.directive 2 [[Token.ident s]] ::
        (List.replicate k (Expression.instruction 10 []) ++ [Expression.label s]))).map
      (fun m => m.getD 0 0) = .ok ((k + 1 : Nat) : Int) := by
  set es := Expression.directive 2 [[Token.ident s]] ::
    (List.replicate k (Expression.instruction 10 []) ++ [Expression.label s]) with hes
  have hlen : es.length = k + 2 := by
    simp [hes]
  set st2 : AsmState :=
    { memory := (List.replicate 1000 (0 : Int)).set 0 0,
      valuesToRecalculate := [(0, [Token.ident s])],
      labels := [], org := 1, lineNumber := -1 } with hst2
  have hemit : emitExpression es (es.length + 1) 0 initState = .ok (st2, 1) := by
    simp only [emitExpression]
    rw [show es[0]? = some (Expression.directive 2 [[Token.ident s]]) from by simp [hes]]
    simp [D_ORG, D_TIMES, D_DV, emit, initState, hst2]
  have hstep := runExpressions_step es (k + 2) 0 initState (by omega)
  rw [hlen] at hemit
  rw [hlen] at hstep
  rw [hemit] at hstep
  dsimp only at hstep
  have hblock := runExpressions_hlt_block s es k (k + 2) 1 st2
    (by simp [hes, hst2]) (by omega)
    (by show 1 + k ≤ ((List.replicate 1000 (0 : Int)).set 0 0).length
        rw [List.length_set]; simp; omega)
    (by omega)
  obtain ⟨mem2, hrun, hlen2, hpres⟩ := hblock
  have hget0 : mem2.getD 0 0 = 0 := by
    have h4 := hpres 0 (by show (0 : Nat) < 1; omega)
    rw [h4]
    show ((List.replicate 1000 (0 : Int)).set 0 0).getD 0 0 = 0
    rw [List.getD_eq_getElem?_getD, List.getElem?_set_self (by simp)]
    rfl
  have hev : evalDeferred [(s, 1 + k)] [Token.ident s] = .ok (JsVal.int ((1 + k : Nat) : Int)) := by
    rw [evalDeferred_single_ident _ _ hs]
    simp [List.lookup]
  unfold assembler
  rw [hlen]
  rw [hstep, hrun]
  simp only [applyRelocs, hev, toNumberJs, hget0]
  have hfinal : (mem2.set 0 (relocCombine 0 ((1 + k : Nat) : Int))).getD 0 0 =
      relocCombine 0 ((1 + k : Nat) : Int) := by
    rw [List.getD_eq_getElem?_getD, List.getElem?_set_self (by rw [hlen2]; simp)]
    rfl
  simp only [Except.map, hfinal]
  rw [show (0 : Int) = ((0 : Nat) : Int) from rfl]
  rw [relocCombine_eq_lor_of_small 0 (1 + k) (by omega) (by omega)]
  rw [show Int.lor ((0 : Nat) : Int) ((1 + k : Nat) : Int) = ((0 ||| (1 + k) : Nat) : Int) from rfl]
  rw [Nat.zero_or]
  rw [show 1 + k = k + 1 from by omega]

/-- Witness for `c6_forward_reference_resolves`: `#DV L`, one `HLT`, then
`L:` — the declare-value cell receives address 2. -/
theorem c6_forward_reference_resolves_witness :
    validIdentName ("L") = true ∧ (1 : Nat) ≤ 999 ∧
      (assembler (Expression.directive 2 [[Token.ident ("L")]] ::
          (List.replicate 1 (Expression.instruction 10 []) ++ [Expression.label ("L")]))).map
        (fun m => m.getD 0 0) = .ok ((1 + 1 : Nat) : Int) :=
  ⟨by decide, by decide, c6_forward_reference_resolves ("L") 1 (by decide) (by decide)⟩

/-! ## Claim C10 -/

/-- Source texts consisting only of spaces, newlines and `;` comments
(a comment runs to the next newline), checked over the newline-terminated
input exactly as the lexer scans it. -/
def blankInput : Nat → List Char → Bool
  | 0, _ => false
  | _ + 1, [] => true
  | fuel + 1, c :: r =>
    if c = ' ' then blankInput fuel r
    else if c = '\n' then blankInput fuel r
    else if c = ';' then blankInput fuel (r.dropWhile (· ≠ '\n'))
    else false

def isBlankSource (s : List Char) : Bool := blankInput (s.length + 2) (s ++ ['\n'])

/-- The lexer turns a blank input into line markers only. -/
theorem lexLoop_blank :
    ∀ (fuel : Nat) (u : List Char) (ln : Nat), blankInput fuel u = true →
      ∃ ts, lexLoop fuel u ln = .ok ts ∧ ∀ t ∈ ts, ∃ n, t = Token.linenum n := by
  intro fuel
  induction fuel with
  | zero =>
    intro u ln h
    exact absurd h (by simp [blankInput])
  | succ fuel ih =>
    intro u ln h
    match u with
    | [] => exact ⟨[], rfl, by simp⟩
    | c :: r =>
      simp only [blankInput] at h
      split at h
      · rename_i h1
        subst h1
        obtain ⟨ts, hts, hall⟩ := ih r ln h
        refine ⟨ts, ?_, hall⟩
        show lexLoop fuel r ln = .ok ts
        exact hts
      · split at h
        · rename_i h1 h2
          subst h2
          obtain ⟨ts, hts, hall⟩ := ih r (ln + 1) h
          refine ⟨Token.linenum (ln + 1) :: ts, ?_, ?_⟩
          · show (lexLoop fuel r (ln + 1)).map (Token.linenum (ln + 1) :: ·) = _
            rw [hts]
            rfl
          · intro t ht
            rcases List.mem_cons.mp ht with rfl | h3
            · exact ⟨ln + 1, rfl⟩
            · exact hall t h3
        · split at h
          · rename_i h1 h2 h3
            subst h3
            obtain ⟨ts, hts, hall⟩ := ih (r.dropWhile (· ≠ '\n')) ln h
            refine ⟨ts, ?_, hall⟩
            show lexLoop fuel (r.dropWhile (· ≠ '\n')) ln = .ok ts
            exact hts
          · exact absurd h (by simp)

/-- The parser turns a line-marker-only stream into line-marker
expressions only. -/
theorem parserLoop_linenum :
    ∀ (fuel : Nat) (ts : List Token) (ln : Int) (acc : List Expression),
      (∀ t ∈ ts, ∃ n, t = Token.linenum n) → ts.length < fuel →
      ∃ es2, parserLoop fuel ts ln acc = .ok (acc ++ es2) ∧
        ∀ e ∈ es2, ∃ n, e = Expression.linenum n := by
  intro fuel
  induction fuel with
  | zero => intro ts ln acc _ hlen; omega
  | succ fuel ih =>
    intro ts ln acc hall hlen
    match ts with
    | [] =>
      refine ⟨[], ?_, by simp⟩
      show Except.ok acc = .ok (acc ++ [])
      rw [List.append_nil]
    | t :: rest =>
      obtain ⟨n, rfl⟩ := hall t (by simp)
      obtain ⟨es2, hes2, hall2⟩ := ih rest n (acc ++ [Expression.linenum n])
        (fun t2 ht2 => hall t2 (by simp [ht2]))
        (by simp only [List.length_cons] at hlen; omega)
      refine ⟨Expression.linenum n :: es2, ?_, ?_⟩
      · show parserLoop fuel rest n (acc ++ [Expression.linenum n]) =
          .ok (acc ++ (Expression.linenum n :: es2))
        rw [hes2]
        congr 1
        simp
      · intro e he
        rcases List.mem_cons.mp he with rfl | h3
        · exact ⟨n, rfl⟩
        · exact hall2 e h3

/-- The first pass over line-marker expressions only updates the line
tracker: memory, labels and deferred entries stay initial. -/
theorem runExpressions_linenum :
    ∀ (fuel : Nat) (es : List Expression) (index : Nat) (st : AsmState),
      (∀ e ∈ es, ∃ n, e = Expression.linenum n) → es.length - index < fuel →
      ∃ ln2, runExpressions es fuel index st = .ok { st with lineNumber := ln2 } := by
  intro fuel
  induction fuel with
  | zero => intro es index st _ hlen; omega
  | succ fuel ih =>
    intro es index st hall hlen
    by_cases hidx : index < es.length
    · have hsome : es[index]? = some es[index] := List.getElem?_eq_getElem hidx
      obtain ⟨n, hn⟩ := hall es[index] (List.getElem_mem hidx)
      rw [hn] at hsome
      obtain ⟨ln2, hrun⟩ := ih es (index + 1) { st with lineNumber := n } hall (by omega)
      refine ⟨ln2, ?_⟩
      simp only [runExpressions, if_pos hidx, emitExpression, hsome]
      exact hrun
    · refine ⟨st.lineNumber, ?_⟩
      simp only [runExpressions, if_neg hidx]

/-- Claim C10: assembling the empty source — and generally any text made
only of whitespace, newlines and comments — succeeds and returns the
untouched zero image of exactly 1000 cells. -/
theorem c10_blank_source_assembles_to_zero_image (s : List Char) (h : isBlankSource s = true) :
    pipeline s = .ok (List.replicate 1000 (0 : Int)) := by
  unfold isBlankSource at h
  obtain ⟨ts, hts, hall⟩ := lexLoop_blank (s.length + 2) (s ++ ['\n']) 1 h
  have hlex : lexer s = .ok (Token.linenum 1 :: ts) := by
    unfold lexer
    rw [hts]
    rfl
  have hall2 : ∀ t ∈ Token.linenum 1 :: ts, ∃ n, t = Token.linenum n := by
    intro t ht
    rcases List.mem_cons.mp ht with rfl | h2
    · exact ⟨1, rfl⟩
    · exact hall t h2
  obtain ⟨es2, hes2, hallE⟩ := parserLoop_linenum ((Token.linenum 1 :: ts).length + 1)
    (Token.linenum 1 :: ts) (-1) [] hall2 (by omega)
  have hparse : parser (Token.linenum 1 :: ts) = .ok es2 := by
    unfold parser
    rw [hes2]
    rw [List.nil_append]
  obtain ⟨ln2, hrun⟩ := runExpressions_linenum (es2.length + 1) es2 0 initState hallE (by omega)
  have hasm : assembler es2 = .ok (List.replicate 1000 (0 : Int)) := by
    unfold assembler
    rw [hrun]
    rfl
  unfold pipeline parseSource
  rw [hlex]
  dsimp only
  rw [hparse]
  exact hasm

/-- Witness for `c10_blank_source_assembles_to_zero_image`: the empty
source and a whitespace-and-comment source. -/
theorem c10_blank_source_assembles_to_zero_image_witness :
    isBlankSource ("".toList) = true ∧
      pipeline ("".toList) = .ok (List.replicate 1000 (0 : Int)) ∧
      isBlankSource (" ; a comment\n \n".toList) = true ∧
      pipeline (" ; a comment\n \n".toList) = .ok (List.replicate 1000 (0 : Int)) :=
  ⟨by decide, c10_blank_source_assembles_to_zero_image ("".toList) (by decide),
    by decide, c10_blank_source_assembles_to_zero_image (" ; a comment\n \n".toList) (by decide)⟩
